import Mathlib

/-
Verification of the annotation stroke engine, coordinate mapper, pixel
format converter and crop logic of the screenshot utility.

The Rust sources are shallowly embedded:
  - src/tools.rs   : Point, DrawingStroke, AnnotationTools and the four
                     drawing algorithms (the Cairo context is modelled as
                     the list of operations emitted into it);
  - src/editor.rs  : the RGBA -> BGRA surface conversion of
                     AnnotationEditor::load_image_data, the surface -> RGBA
                     read-back of render_to_file_static, and the
                     display-space <-> image-space coordinate mapping of
                     setup_drawing_events;
  - src/capture.rs : ScreenshotCapture::crop_image_region (the identical
                     crop_png_data_direct in main.rs is covered by the same
                     model).

Machine floats (f64) are modelled exactly: as rationals where only field
operations occur (the coordinate mapper), and as real numbers where square
roots and trigonometry occur (the arrowhead geometry).  Byte buffers are
lists of natural numbers.
-/

namespace Screenshot

/-! ### Cairo context model

A Cairo drawing context is modelled by the trace of operations a draw call
emits into it, in order. -/

/-- Cairo line cap styles (cairo::LineCap). -/
inductive CairoLineCap
  | butt
  | round
  | square
deriving DecidableEq, Repr

/-- Cairo line join styles (cairo::LineJoin). -/
inductive CairoLineJoin
  | miter
  | round
  | bevel
deriving DecidableEq, Repr

/-- One operation emitted into a Cairo context by the drawing code. -/
inductive CairoOp
  | save
  | restore
  | setSourceRgba (r g b a : ℝ)
  | setLineWidth (w : ℝ)
  | setLineCap (c : CairoLineCap)
  | setLineJoin (j : CairoLineJoin)
  | moveTo (x y : ℝ)
  | lineTo (x y : ℝ)
  | stroke

/-! ### Stroke model (src/tools.rs) -/

/-- Tool kinds, from `enum ToolType` in src/tools.rs. -/
inductive ToolType
  | Pencil
  | Line
  | Arrow
  | Highlighter
deriving DecidableEq, Repr

/-- A point, from `struct Point` in src/tools.rs.  Coordinates are f64 in
the source, modelled as reals. -/
structure Point where
  x : ℝ
  y : ℝ

/-- An RGBA color, from gdk4::RGBA (fields red, green, blue, alpha). -/
structure RGBA where
  red : ℝ
  green : ℝ
  blue : ℝ
  alpha : ℝ

/-- A drawing stroke, from `struct DrawingStroke` in src/tools.rs. -/
structure DrawingStroke where
  tool_type : ToolType
  points : List Point
  color : RGBA
  thickness : ℝ
  finished : Bool

/-- DrawingStroke::new in src/tools.rs. -/
def DrawingStroke.mk_new (tool_type : ToolType) (color : RGBA) (thickness : ℝ) :
    DrawingStroke :=
  { tool_type := tool_type
    points := []
    color := color
    thickness := thickness
    finished := false }

/-- DrawingStroke::add_point in src/tools.rs (Vec::push appends). -/
def DrawingStroke.add_point (s : DrawingStroke) (p : Point) : DrawingStroke :=
  { s with points := s.points ++ [p] }

/-- DrawingStroke::finish in src/tools.rs. -/
def DrawingStroke.finish (s : DrawingStroke) : DrawingStroke :=
  { s with finished := true }

/-- The poly-line path block shared verbatim by DrawingStroke::draw_pencil
and DrawingStroke::draw_highlighter in src/tools.rs: `if let Some(first)`
then move_to the first point, line_to every following point, and stroke;
an empty point list emits nothing. -/
def polylinePath : List Point → List CairoOp
  | [] => []
  | p :: rest =>
      CairoOp.moveTo p.x p.y ::
        ((rest.map fun q => CairoOp.lineTo q.x q.y) ++ [CairoOp.stroke])

/-- DrawingStroke::draw_pencil in src/tools.rs. -/
def DrawingStroke.draw_pencil (s : DrawingStroke) : List CairoOp :=
  [CairoOp.setLineWidth s.thickness,
   CairoOp.setLineCap CairoLineCap.round,
   CairoOp.setLineJoin CairoLineJoin.round]
  ++ polylinePath s.points

/-- DrawingStroke::draw_line in src/tools.rs: `points[0]` and
`points[len - 1]` are only read under the `len >= 2` guard. -/
def DrawingStroke.draw_line (s : DrawingStroke) : List CairoOp :=
  if 2 ≤ s.points.length then
    let start := s.points.getD 0 ⟨0, 0⟩
    let stop := s.points.getD (s.points.length - 1) ⟨0, 0⟩
    [CairoOp.setLineWidth s.thickness,
     CairoOp.setLineCap CairoLineCap.round,
     CairoOp.moveTo start.x start.y,
     CairoOp.lineTo stop.x stop.y,
     CairoOp.stroke]
  else []

/-- DrawingStroke::draw_arrowhead in src/tools.rs.  arrow_length is
`thickness * 3.0`, arrow_angle is pi/6; when the direction length is zero
the function returns before emitting anything. -/
noncomputable def DrawingStroke.draw_arrowhead (s : DrawingStroke)
    (start stop : Point) : List CairoOp :=
  let arrow_length := s.thickness * 3
  let arrow_angle := Real.pi / 6
  let dx := stop.x - start.x
  let dy := stop.y - start.y
  let length := Real.sqrt (dx * dx + dy * dy)
  if length = 0 then []
  else
    let unit_x := dx / length
    let unit_y := dy / length
    let arrow_x1 := stop.x -
      arrow_length * (unit_x * Real.cos arrow_angle - unit_y * Real.sin arrow_angle)
    let arrow_y1 := stop.y -
      arrow_length * (unit_x * Real.sin arrow_angle + unit_y * Real.cos arrow_angle)
    let arrow_x2 := stop.x -
      arrow_length * (unit_x * Real.cos arrow_angle + unit_y * Real.sin arrow_angle)
    let arrow_y2 := stop.y -
      arrow_length * (-unit_x * Real.sin arrow_angle + unit_y * Real.cos arrow_angle)
    [CairoOp.moveTo stop.x stop.y,
     CairoOp.lineTo arrow_x1 arrow_y1,
     CairoOp.moveTo stop.x stop.y,
     CairoOp.lineTo arrow_x2 arrow_y2,
     CairoOp.stroke]

/-- DrawingStroke::draw_arrow in src/tools.rs: under the `len >= 2` guard,
draw the main line then the arrowhead. -/
noncomputable def DrawingStroke.draw_arrow (s : DrawingStroke) : List CairoOp :=
  if 2 ≤ s.points.length then
    let start := s.points.getD 0 ⟨0, 0⟩
    let stop := s.points.getD (s.points.length - 1) ⟨0, 0⟩
    [CairoOp.setLineWidth s.thickness,
     CairoOp.setLineCap CairoLineCap.round,
     CairoOp.moveTo start.x start.y,
     CairoOp.lineTo stop.x stop.y,
     CairoOp.stroke]
    ++ s.draw_arrowhead start stop
  else []

/-- DrawingStroke::draw_highlighter in src/tools.rs: width, round cap and
join, then a second set_source_rgba with the stroke color's red, green and
blue but the hardcoded alpha 0.3, then the same poly-line block as
draw_pencil. -/
noncomputable def DrawingStroke.draw_highlighter (s : DrawingStroke) : List CairoOp :=
  [CairoOp.setLineWidth s.thickness,
   CairoOp.setLineCap CairoLineCap.round,
   CairoOp.setLineJoin CairoLineJoin.round,
   CairoOp.setSourceRgba s.color.red s.color.green s.color.blue (3 / 10)]
  ++ polylinePath s.points

/-- DrawingStroke::draw in src/tools.rs: early return on an empty point
list, otherwise save, set the stroke color, dispatch on the tool, restore. -/
noncomputable def DrawingStroke.draw (s : DrawingStroke) : List CairoOp :=
  if s.points.isEmpty then []
  else
    [CairoOp.save,
     CairoOp.setSourceRgba s.color.red s.color.green s.color.blue s.color.alpha]
    ++ (match s.tool_type with
        | ToolType.Pencil => s.draw_pencil
        | ToolType.Line => s.draw_line
        | ToolType.Arrow => s.draw_arrow
        | ToolType.Highlighter => s.draw_highlighter)
    ++ [CairoOp.restore]

/-- A concrete arrow stroke (two points, from the origin to (1,0),
thickness 2) used to exercise the drawing model on explicit input. -/
def arrowSampleStroke : DrawingStroke :=
  { tool_type := ToolType.Arrow
    points := [⟨0, 0⟩, ⟨1, 0⟩]
    color := { red := 1, green := 0, blue := 0, alpha := 1 }
    thickness := 2
    finished := false }

/-! ### Annotation tool state (src/tools.rs) -/

/-- The annotation tool state, from `struct AnnotationTools` in
src/tools.rs. -/
structure AnnotationTools where
  current_tool : ToolType
  current_color : RGBA
  current_thickness : ℝ
  strokes : List DrawingStroke
  current_stroke : Option DrawingStroke

/-- AnnotationTools::new in src/tools.rs. -/
def AnnotationTools.mk_new : AnnotationTools :=
  { current_tool := ToolType.Pencil
    current_color := { red := 1, green := 0, blue := 0, alpha := 1 }
    current_thickness := 3
    strokes := []
    current_stroke := none }

/-- AnnotationTools::set_tool in src/tools.rs: stores the tool and resets
current_thickness to the tool's default. -/
def AnnotationTools.set_tool (s : AnnotationTools) (tool : ToolType) :
    AnnotationTools :=
  { s with
    current_tool := tool
    current_thickness :=
      match tool with
      | ToolType.Pencil => 3
      | ToolType.Line => 2
      | ToolType.Arrow => 2
      | ToolType.Highlighter => 8 }

/-- AnnotationTools::set_color in src/tools.rs. -/
def AnnotationTools.set_color (s : AnnotationTools) (color : RGBA) :
    AnnotationTools :=
  { s with current_color := color }

/-- AnnotationTools::set_thickness in src/tools.rs. -/
def AnnotationTools.set_thickness (s : AnnotationTools) (thickness : ℝ) :
    AnnotationTools :=
  { s with current_thickness := thickness }

/-- AnnotationTools::start_stroke in src/tools.rs: builds a fresh stroke
from the current tool, color and thickness, pushes the given point into it
and overwrites current_stroke. -/
def AnnotationTools.start_stroke (s : AnnotationTools) (point : Point) :
    AnnotationTools :=
  { s with
    current_stroke :=
      some ((DrawingStroke.mk_new s.current_tool s.current_color
        s.current_thickness).add_point point) }

/-- AnnotationTools::add_point_to_stroke in src/tools.rs. -/
def AnnotationTools.add_point_to_stroke (s : AnnotationTools) (point : Point) :
    AnnotationTools :=
  match s.current_stroke with
  | some stroke => { s with current_stroke := some (stroke.add_point point) }
  | none => s

/-- AnnotationTools::finish_stroke in src/tools.rs: takes the current
stroke, marks it finished and pushes it onto strokes. -/
def AnnotationTools.finish_stroke (s : AnnotationTools) : AnnotationTools :=
  match s.current_stroke with
  | some stroke =>
      { s with
        current_stroke := none
        strokes := s.strokes ++ [stroke.finish] }
  | none => s

/-- AnnotationTools::cancel_stroke in src/tools.rs. -/
def AnnotationTools.cancel_stroke (s : AnnotationTools) : AnnotationTools :=
  { s with current_stroke := none }

/-- AnnotationTools::clear_all in src/tools.rs. -/
def AnnotationTools.clear_all (s : AnnotationTools) : AnnotationTools :=
  { s with strokes := [], current_stroke := none }

/-! ### Coordinate mapper (src/editor.rs, setup_drawing_events)

The f64 arithmetic involves only field operations, so it is modelled
exactly over the rationals. -/

/-- The display-space to image-space conversion performed in
gesture_click.connect_pressed (src/editor.rs lines 396-423): fit-to-area
scale, centering offset, then `(p - offset) / scale`. -/
def to_image_space (x y area_width area_height image_width image_height : ℚ) :
    ℚ × ℚ :=
  let scale_x := area_width / image_width
  let scale_y := area_height / image_height
  let scale := min scale_x scale_y
  let scaled_width := image_width * scale
  let scaled_height := image_height * scale
  let offset_x := (area_width - scaled_width) / 2
  let offset_y := (area_height - scaled_height) / 2
  ((x - offset_x) / scale, (y - offset_y) / scale)

/-- The render-time transform of the draw_func (src/editor.rs lines
363-382): `ctx.translate(offset_x, offset_y); ctx.scale(scale, scale)`
maps an image-space point p to `offset + scale * p` in display space. -/
def to_display_space (ix iy area_width area_height image_width image_height : ℚ) :
    ℚ × ℚ :=
  let scale_x := area_width / image_width
  let scale_y := area_height / image_height
  let scale := min scale_x scale_y
  let scaled_width := image_width * scale
  let scaled_height := image_height * scale
  let offset_x := (area_width - scaled_width) / 2
  let offset_y := (area_height - scaled_height) / 2
  (offset_x + scale * ix, offset_y + scale * iy)

/-! ### Pixel format converter (src/editor.rs)

Byte buffers are lists of naturals.  `load_image_data` converts a tightly
packed row-major RGBA8 buffer into the Cairo ARgb32 surface layout
(per-pixel byte order B,G,R,A, rows addressed by the Cairo stride, the
initial buffer zero-filled); `render_to_file_static` reads the surface back
into tightly packed RGBA8. -/

/-- cairo_format_stride_for_width for Format::ARgb32 (32 bits per pixel,
rows aligned to 4 bytes): `((32*w + 7) / 8 + 3) & ~3`, written with the
division-multiplication form of the alignment mask. -/
def format_stride_for_width (width : Nat) : Nat :=
  ((32 * width + 7) / 8 + 3) / 4 * 4

/-- One iteration of the RGBA -> BGRA pixel loop body of
AnnotationEditor::load_image_data (src/editor.rs lines 162-175): read the
source pixel at `(y*width + x)*4` and store its bytes at
`y*stride + x*4` in B,G,R,A order. -/
def writeBgraPixel (rgba : List Nat) (width stride x y : Nat)
    (dst : List Nat) : List Nat :=
  let src_idx := (y * width + x) * 4
  let dst_idx := y * stride + x * 4
  let r := rgba.getD src_idx 0
  let g := rgba.getD (src_idx + 1) 0
  let b := rgba.getD (src_idx + 2) 0
  let a := rgba.getD (src_idx + 3) 0
  ((((dst.set dst_idx b).set (dst_idx + 1) g).set (dst_idx + 2) r).set
    (dst_idx + 3) a)

/-- The inner `for x in 0..width` loop of load_image_data: each pixel is
written only under the guard `dst_idx + 3 < surface_data.len()`; when the
guard fails the loop logs "Buffer overflow prevented" and breaks out of
the row. -/
def convertRow (rgba : List Nat) (width stride y : Nat) :
    List Nat → List Nat → List Nat
  | [], dst => dst
  | x :: xs, dst =>
      if y * stride + x * 4 + 3 < dst.length then
        convertRow rgba width stride y xs (writeBgraPixel rgba width stride x y dst)
      else dst

/-- The outer `for y in 0..height` loop of load_image_data. -/
def convertRows (rgba : List Nat) (width stride : Nat) :
    List Nat → List Nat → List Nat
  | [], dst => dst
  | y :: ys, dst =>
      convertRows rgba width stride ys
        (convertRow rgba width stride y (List.range width) dst)

/-- AnnotationEditor::load_image_data (src/editor.rs lines 135-199),
restricted to its pixel conversion: allocate `vec![0u8; stride * height]`
and run the nested conversion loops over it. -/
def load_image_data (rgba : List Nat) (width height : Nat) : List Nat :=
  let stride := format_stride_for_width width
  convertRows rgba width stride (List.range height)
    (List.replicate (stride * height) 0)

/-- The surface -> RGBA read-back loop of
AnnotationEditor::render_to_file_static (src/editor.rs lines 671-687):
for every y and x read the four bytes at `y*stride + x*4` (B,G,R,A) and
append them to the output in R,G,B,A order. -/
def render_surface_to_rgba (data : List Nat) (width height stride : Nat) :
    List Nat :=
  (List.range height).flatMap fun y =>
    (List.range width).flatMap fun x =>
      let off := y * stride + x * 4
      [data.getD (off + 2) 0, data.getD (off + 1) 0,
       data.getD off 0, data.getD (off + 3) 0]

/-! ### Crop (src/capture.rs crop_image_region; the identical
crop_png_data_direct in src/main.rs)

The external image codec is abstracted away: the model works on the
decoded image.  Pixel values are opaque naturals. -/

/-- A decoded image: dimensions plus the pixel value at each coordinate. -/
structure DecodedImage where
  width : Nat
  height : Nat
  pix : Nat → Nat → Nat

/-- image::DynamicImage::crop_imm from the image crate, modelled from its
documented semantics: the origin is clamped into the image, the extent is
clamped to what remains, and the result reads pixels at the translated
coordinates. -/
def cropImm (img : DecodedImage) (x y w h : Nat) : DecodedImage :=
  let cx := min x img.width
  let cy := min y img.height
  let cw := min w (img.width - cx)
  let ch := min h (img.height - cy)
  { width := cw
    height := ch
    pix := fun i j => img.pix (cx + i) (cy + j) }

/-- ScreenshotCapture::crop_image_region (src/capture.rs lines 153-202) on
the decoded image: clamp the requested i32 rectangle
(`x.max(0)`, `width.min(img_w - x).max(1)`, similarly for y and height),
fail when the clamped origin reaches or exceeds the image bounds, else
crop with crop_imm. -/
def crop_image_region (img : DecodedImage) (x y width height : ℤ) :
    Except String DecodedImage :=
  let crop_x : Nat := (max x 0).toNat
  let crop_y : Nat := (max y 0).toNat
  let crop_width : Nat := (max (min width ((img.width : ℤ) - x)) 1).toNat
  let crop_height : Nat := (max (min height ((img.height : ℤ) - y)) 1).toNat
  if img.width ≤ crop_x ∨ img.height ≤ crop_y then
    Except.error "Crop region is outside image bounds"
  else
    Except.ok (cropImm img crop_x crop_y crop_width crop_height)

/-! ### Theorems -/

/-- C3: for every annotation state and points p, q, the sequence
start_stroke p; add_point q; finish_stroke grows strokes by exactly one
and leaves no in-progress stroke, and the sequence start_stroke p;
cancel_stroke leaves strokes unchanged with no in-progress stroke. -/
theorem stroke_finish_and_cancel (s : AnnotationTools) (p q : Point) :
    (((s.start_stroke p).add_point_to_stroke q).finish_stroke).strokes.length
        = s.strokes.length + 1
    ∧ (((s.start_stroke p).add_point_to_stroke q).finish_stroke).current_stroke
        = none
    ∧ ((s.start_stroke p).cancel_stroke).strokes.length = s.strokes.length
    ∧ ((s.start_stroke p).cancel_stroke).current_stroke = none := by
  refine ⟨?_, rfl, rfl, rfl⟩
  simp [AnnotationTools.start_stroke, AnnotationTools.add_point_to_stroke,
    AnnotationTools.finish_stroke]

/-- C4: set_tool resets current_thickness to the selected tool's default
(Pencil 3.0, Line 2.0, Arrow 2.0, Highlighter 8.0), overwriting whatever
thickness the state held before; in particular set_tool Highlighter always
yields current_thickness = 8. -/
theorem set_tool_resets_thickness (s : AnnotationTools) :
    (s.set_tool ToolType.Pencil).current_thickness = 3
    ∧ (s.set_tool ToolType.Line).current_thickness = 2
    ∧ (s.set_tool ToolType.Arrow).current_thickness = 2
    ∧ (s.set_tool ToolType.Highlighter).current_thickness = 8 :=
  ⟨rfl, rfl, rfl, rfl⟩

/-- C9: set_tool, set_color and set_thickness leave the strokes collection
and the in-progress stroke (all of its fields) completely unchanged. -/
theorem setters_leave_strokes_unchanged (s : AnnotationTools)
    (tool : ToolType) (color : RGBA) (t : ℝ) :
    ((s.set_tool tool).strokes = s.strokes
      ∧ (s.set_tool tool).current_stroke = s.current_stroke)
    ∧ ((s.set_color color).strokes = s.strokes
      ∧ (s.set_color color).current_stroke = s.current_stroke)
    ∧ ((s.set_thickness t).strokes = s.strokes
      ∧ (s.set_thickness t).current_stroke = s.current_stroke) :=
  ⟨⟨rfl, rfl⟩, ⟨rfl, rfl⟩, ⟨rfl, rfl⟩⟩

/-- C10: starting a stroke while one is already in progress silently
replaces the in-progress stroke with a brand-new one built from the
current tool, color and thickness and containing only the new point; the
old in-progress stroke is never appended to strokes, which are unchanged. -/
theorem start_stroke_replaces_in_progress (s : AnnotationTools) (p : Point)
    (st : DrawingStroke) (h : s.current_stroke = some st) :
    (s.start_stroke p).strokes = s.strokes
    ∧ (s.start_stroke p).current_stroke =
        some { tool_type := s.current_tool
               points := [p]
               color := s.current_color
               thickness := s.current_thickness
               finished := false } :=
  ⟨rfl, rfl⟩

/-- C10 witness: a concrete state with an in-progress stroke. -/
theorem start_stroke_replaces_in_progress_witness :
    ({ current_tool := ToolType.Pencil
       current_color := { red := 1, green := 0, blue := 0, alpha := 1 }
       current_thickness := 3
       strokes := []
       current_stroke := some (DrawingStroke.mk_new ToolType.Line
         { red := 0, green := 1, blue := 0, alpha := 1 } 2) } :
        AnnotationTools).current_stroke
      = some (DrawingStroke.mk_new ToolType.Line
         { red := 0, green := 1, blue := 0, alpha := 1 } 2)
    ∧ (({ current_tool := ToolType.Pencil
          current_color := { red := 1, green := 0, blue := 0, alpha := 1 }
          current_thickness := 3
          strokes := []
          current_stroke := some (DrawingStroke.mk_new ToolType.Line
            { red := 0, green := 1, blue := 0, alpha := 1 } 2) } :
            AnnotationTools).start_stroke ⟨5, 6⟩).strokes = []
    ∧ (({ current_tool := ToolType.Pencil
          current_color := { red := 1, green := 0, blue := 0, alpha := 1 }
          current_thickness := 3
          strokes := []
          current_stroke := some (DrawingStroke.mk_new ToolType.Line
            { red := 0, green := 1, blue := 0, alpha := 1 } 2) } :
            AnnotationTools).start_stroke ⟨5, 6⟩).current_stroke =
        some { tool_type := ToolType.Pencil
               points := [⟨5, 6⟩]
               color := { red := 1, green := 0, blue := 0, alpha := 1 }
               thickness := 3
               finished := false } :=
  ⟨rfl,
    (start_stroke_replaces_in_progress _ ⟨5, 6⟩
      (DrawingStroke.mk_new ToolType.Line
        { red := 0, green := 1, blue := 0, alpha := 1 } 2) rfl).1,
    (start_stroke_replaces_in_progress _ ⟨5, 6⟩
      (DrawingStroke.mk_new ToolType.Line
        { red := 0, green := 1, blue := 0, alpha := 1 } 2) rfl).2⟩

/-- C2: for a display point inside the display area, with positive area and
image dimensions, mapping to image space and back through the render-time
transform returns the original display coordinates (exactly, in the
rational model of the f64 arithmetic). -/
theorem coordinate_mapper_roundtrip (x y aw ah iw ih : ℚ)
    (hx0 : 0 ≤ x) (hxa : x ≤ aw) (hy0 : 0 ≤ y) (hya : y ≤ ah)
    (haw : 0 < aw) (hah : 0 < ah) (hiw : 0 < iw) (hih : 0 < ih) :
    to_display_space (to_image_space x y aw ah iw ih).1
      (to_image_space x y aw ah iw ih).2 aw ah iw ih = (x, y) := by
  have hs : 0 < min (aw / iw) (ah / ih) :=
    lt_min (div_pos haw hiw) (div_pos hah hih)
  have hs0 : min (aw / iw) (ah / ih) ≠ 0 := ne_of_gt hs
  have key : ∀ o p : ℚ,
      o + min (aw / iw) (ah / ih) * ((p - o) / min (aw / iw) (ah / ih)) = p := by
    intro o p
    rw [mul_comm, div_mul_cancel₀ _ hs0]
    ring
  simp only [to_image_space, to_display_space]
  exact Prod.ext (key _ _) (key _ _)

/-- C2 witness: a 4 x 2 display area showing a 2 x 2 image (scale 1,
offset (1, 0)) and the display point (2, 1). -/
theorem coordinate_mapper_roundtrip_witness :
    (0:ℚ) ≤ 2 ∧ (2:ℚ) ≤ 4 ∧ (0:ℚ) ≤ 1 ∧ (1:ℚ) ≤ 2
    ∧ (0:ℚ) < 4 ∧ (0:ℚ) < 2 ∧ (0:ℚ) < 2 ∧ (0:ℚ) < 2
    ∧ to_display_space (to_image_space 2 1 4 2 2 2).1
        (to_image_space 2 1 4 2 2 2).2 4 2 2 2 = (2, 1) :=
  ⟨by norm_num, by norm_num, by norm_num, by norm_num,
   by norm_num, by norm_num, by norm_num, by norm_num,
   coordinate_mapper_roundtrip 2 1 4 2 2 2 (by norm_num) (by norm_num)
     (by norm_num) (by norm_num) (by norm_num) (by norm_num)
     (by norm_num) (by norm_num)⟩

/-- C5: cropping with x at or beyond the image width fails with the bounds
error, and cropping the full image rectangle (origin 0,0 and the image's
own dimensions) succeeds and returns an image with identical dimensions
and pixel content. -/
theorem crop_bounds (img : DecodedImage) (x y w h : ℤ) :
    ((img.width : ℤ) ≤ x →
      crop_image_region img x y w h
        = Except.error "Crop region is outside image bounds")
    ∧ (1 ≤ img.width → 1 ≤ img.height →
      ∃ res : DecodedImage,
        crop_image_region img 0 0 (img.width : ℤ) (img.height : ℤ)
            = Except.ok res
        ∧ res.width = img.width
        ∧ res.height = img.height
        ∧ ∀ i j : Nat, res.pix i j = img.pix i j) := by
  constructor
  · intro hx
    have hguard : img.width ≤ (max x 0).toNat := by omega
    unfold crop_image_region
    rw [if_pos (Or.inl hguard)]
  · intro hw hh
    have hguard : ¬ (img.width ≤ (max (0:ℤ) 0).toNat
        ∨ img.height ≤ (max (0:ℤ) 0).toNat) := by
      push_neg
      constructor <;> omega
    unfold crop_image_region
    rw [if_neg hguard]
    refine ⟨_, rfl, ?_, ?_, ?_⟩
    · show (cropImm img _ _ _ _).width = img.width
      unfold cropImm
      simp only []
      omega
    · show (cropImm img _ _ _ _).height = img.height
      unfold cropImm
      simp only []
      omega
    · intro i j
      show img.pix (min ((max (0:ℤ) 0).toNat) img.width + i)
        (min ((max (0:ℤ) 0).toNat) img.height + j) = img.pix i j
      have h1 : min ((max (0:ℤ) 0).toNat) img.width = 0 := by omega
      have h2 : min ((max (0:ℤ) 0).toNat) img.height = 0 := by omega
      rw [h1, h2, Nat.zero_add, Nat.zero_add]

/-- C5 witness: a 2 x 2 image; cropping at x = 2 fails, cropping the full
rectangle returns the image unchanged. -/
theorem crop_bounds_witness :
    crop_image_region ⟨2, 2, fun i j => i + 10 * j⟩ 2 0 1 1
        = Except.error "Crop region is outside image bounds"
    ∧ (∃ res : DecodedImage,
        crop_image_region ⟨2, 2, fun i j => i + 10 * j⟩ 0 0 ((2:Nat) : ℤ)
            ((2:Nat) : ℤ) = Except.ok res
        ∧ res.width = 2
        ∧ res.height = 2
        ∧ ∀ i j : Nat, res.pix i j = (fun i j : Nat => i + 10 * j) i j) :=
  ⟨(crop_bounds ⟨2, 2, fun i j => i + 10 * j⟩ 2 0 1 1).1 (by norm_num),
   (crop_bounds ⟨2, 2, fun i j => i + 10 * j⟩ 2 0 1 1).2 (by norm_num)
     (by norm_num)⟩

/-- C7: a Highlighter stroke is drawn with the stroke color's red, green
and blue at the fixed alpha 0.3 (the second set_source_rgba overriding the
stroke color set by draw), whatever alpha the stroke stores, and its
poly-line path (width, round cap, round join, all points in order) is the
same block draw_pencil emits for the Freehand tool. -/
theorem highlighter_fixed_alpha (s : DrawingStroke)
    (hT : s.tool_type = ToolType.Highlighter) (hne : s.points ≠ []) :
    s.draw =
      [CairoOp.save,
       CairoOp.setSourceRgba s.color.red s.color.green s.color.blue s.color.alpha,
       CairoOp.setLineWidth s.thickness,
       CairoOp.setLineCap CairoLineCap.round,
       CairoOp.setLineJoin CairoLineJoin.round,
       CairoOp.setSourceRgba s.color.red s.color.green s.color.blue (3 / 10)]
      ++ polylinePath s.points ++ [CairoOp.restore]
    ∧ s.draw_pencil =
      [CairoOp.setLineWidth s.thickness,
       CairoOp.setLineCap CairoLineCap.round,
       CairoOp.setLineJoin CairoLineJoin.round]
      ++ polylinePath s.points := by
  refine ⟨?_, rfl⟩
  unfold DrawingStroke.draw
  rw [if_neg (by simp [hne]), hT]
  simp [DrawingStroke.draw_highlighter]

/-- C7 witness: a concrete two-point highlighter stroke with stored alpha
1 is rendered with source alpha 3/10. -/
theorem highlighter_fixed_alpha_witness :
    ({ tool_type := ToolType.Highlighter
       points := [⟨0, 0⟩, ⟨1, 1⟩]
       color := { red := 1, green := 0, blue := 0, alpha := 1 }
       thickness := 8
       finished := false } : DrawingStroke).draw =
      [CairoOp.save,
       CairoOp.setSourceRgba 1 0 0 1,
       CairoOp.setLineWidth 8,
       CairoOp.setLineCap CairoLineCap.round,
       CairoOp.setLineJoin CairoLineJoin.round,
       CairoOp.setSourceRgba 1 0 0 (3 / 10)]
      ++ polylinePath [⟨0, 0⟩, ⟨1, 1⟩] ++ [CairoOp.restore]
    ∧ ({ tool_type := ToolType.Highlighter
         points := [⟨0, 0⟩, ⟨1, 1⟩]
         color := { red := 1, green := 0, blue := 0, alpha := 1 }
         thickness := 8
         finished := false } : DrawingStroke).draw_pencil =
      [CairoOp.setLineWidth 8,
       CairoOp.setLineCap CairoLineCap.round,
       CairoOp.setLineJoin CairoLineJoin.round]
      ++ polylinePath [⟨0, 0⟩, ⟨1, 1⟩] :=
  highlighter_fixed_alpha _ rfl (by simp)

/-- C6: an Arrow stroke with at least two points draws the segment from
points[0] to points[last] followed by the arrowhead; when the endpoints
coincide the arrowhead is skipped entirely (draw still completes, emitting
just the degenerate shaft); otherwise the arrowhead is two segments from
the end point whose tips lie at distance 3 x thickness from the end point,
obtained by rotating the reversed unit direction vector by +30 and -30
degrees and scaling by 3 x thickness. -/
theorem arrow_shaft_and_arrowhead (s : DrawingStroke) (pstart pstop : Point)
    (hT : s.tool_type = ToolType.Arrow) (h2 : 2 ≤ s.points.length)
    (ht : 0 ≤ s.thickness)
    (hp0 : s.points.getD 0 ⟨0, 0⟩ = pstart)
    (hp1 : s.points.getD (s.points.length - 1) ⟨0, 0⟩ = pstop) :
    s.draw =
      [CairoOp.save,
       CairoOp.setSourceRgba s.color.red s.color.green s.color.blue s.color.alpha,
       CairoOp.setLineWidth s.thickness,
       CairoOp.setLineCap CairoLineCap.round,
       CairoOp.moveTo pstart.x pstart.y,
       CairoOp.lineTo pstop.x pstop.y,
       CairoOp.stroke]
      ++ s.draw_arrowhead pstart pstop ++ [CairoOp.restore]
    ∧ (pstart = pstop → s.draw_arrowhead pstart pstop = [])
    ∧ (pstart ≠ pstop →
        ∃ t1 t2 : Point,
          s.draw_arrowhead pstart pstop =
            [CairoOp.moveTo pstop.x pstop.y, CairoOp.lineTo t1.x t1.y,
             CairoOp.moveTo pstop.x pstop.y, CairoOp.lineTo t2.x t2.y,
             CairoOp.stroke]
          ∧ Real.sqrt ((t1.x - pstop.x) ^ 2 + (t1.y - pstop.y) ^ 2)
              = 3 * s.thickness
          ∧ Real.sqrt ((t2.x - pstop.x) ^ 2 + (t2.y - pstop.y) ^ 2)
              = 3 * s.thickness
          ∧ ∃ ux uy : ℝ,
              ux = (pstop.x - pstart.x) /
                Real.sqrt ((pstop.x - pstart.x) * (pstop.x - pstart.x)
                  + (pstop.y - pstart.y) * (pstop.y - pstart.y))
              ∧ uy = (pstop.y - pstart.y) /
                Real.sqrt ((pstop.x - pstart.x) * (pstop.x - pstart.x)
                  + (pstop.y - pstart.y) * (pstop.y - pstart.y))
              ∧ ux ^ 2 + uy ^ 2 = 1
              ∧ t1.x - pstop.x = 3 * s.thickness *
                  (Real.cos (Real.pi / 6) * (-ux) - Real.sin (Real.pi / 6) * (-uy))
              ∧ t1.y - pstop.y = 3 * s.thickness *
                  (Real.sin (Real.pi / 6) * (-ux) + Real.cos (Real.pi / 6) * (-uy))
              ∧ t2.x - pstop.x = 3 * s.thickness *
                  (Real.cos (-(Real.pi / 6)) * (-ux)
                    - Real.sin (-(Real.pi / 6)) * (-uy))
              ∧ t2.y - pstop.y = 3 * s.thickness *
                  (Real.sin (-(Real.pi / 6)) * (-ux)
                    + Real.cos (-(Real.pi / 6)) * (-uy))) := by
  have hne : s.points ≠ [] := by
    intro hnil
    rw [hnil] at h2
    simp at h2
  refine ⟨?_, ?_, ?_⟩
  · unfold DrawingStroke.draw
    rw [if_neg (by simp [hne]), hT]
    unfold DrawingStroke.draw_arrow
    rw [if_pos h2, hp0, hp1]
    simp
  · intro heq
    subst heq
    unfold DrawingStroke.draw_arrowhead
    rw [if_pos (by simp [sub_self])]
  · intro hnep
    have hxy : pstop.x - pstart.x ≠ 0 ∨ pstop.y - pstart.y ≠ 0 := by
      by_contra hc
      push_neg at hc
      apply hnep
      obtain ⟨hc1, hc2⟩ := hc
      cases pstart
      cases pstop
      simp only [Point.mk.injEq]
      constructor <;> [skip; skip] <;> simp_all <;> linarith
    set dx : ℝ := pstop.x - pstart.x with hdx
    set dy : ℝ := pstop.y - pstart.y with hdy
    have hd2 : 0 < dx * dx + dy * dy := by
      rcases hxy with hx | hy
      · have := mul_self_nonneg dy
        have := mul_self_pos.mpr hx
        linarith
      · have := mul_self_nonneg dx
        have := mul_self_pos.mpr hy
        linarith
    set n : ℝ := Real.sqrt (dx * dx + dy * dy) with hn
    have hnpos : 0 < n := Real.sqrt_pos.mpr hd2
    have hn0 : n ≠ 0 := ne_of_gt hnpos
    have hnn : n * n = dx * dx + dy * dy := Real.mul_self_sqrt hd2.le
    have hn2 : n ^ 2 = dx * dx + dy * dy := by
      rw [pow_two]
      exact hnn
    have hu : (dx / n) ^ 2 + (dy / n) ^ 2 = 1 := by
      rw [div_pow, div_pow, div_add_div_same, hn2, pow_two, pow_two]
      exact div_self (ne_of_gt hd2)
    have hcs : Real.cos (Real.pi / 6) ^ 2 + Real.sin (Real.pi / 6) ^ 2 = 1 :=
      Real.cos_sq_add_sin_sq (Real.pi / 6)
    have hL : (0:ℝ) ≤ s.thickness * 3 := by linarith
    unfold DrawingStroke.draw_arrowhead
    rw [if_neg hn0]
    refine ⟨⟨pstop.x - s.thickness * 3 *
        (dx / n * Real.cos (Real.pi / 6) - dy / n * Real.sin (Real.pi / 6)),
      pstop.y - s.thickness * 3 *
        (dx / n * Real.sin (Real.pi / 6) + dy / n * Real.cos (Real.pi / 6))⟩,
      ⟨pstop.x - s.thickness * 3 *
        (dx / n * Real.cos (Real.pi / 6) + dy / n * Real.sin (Real.pi / 6)),
      pstop.y - s.thickness * 3 *
        (-(dx / n) * Real.sin (Real.pi / 6) + dy / n * Real.cos (Real.pi / 6))⟩,
      rfl, ?_, ?_,
      dx / n, dy / n, rfl, rfl, hu, by ring, by ring,
      by rw [Real.cos_neg, Real.sin_neg]; ring,
      by rw [Real.cos_neg, Real.sin_neg]; ring⟩
    · have hsq : (pstop.x - s.thickness * 3 *
          (dx / n * Real.cos (Real.pi / 6) - dy / n * Real.sin (Real.pi / 6))
            - pstop.x) ^ 2
          + (pstop.y - s.thickness * 3 *
          (dx / n * Real.sin (Real.pi / 6) + dy / n * Real.cos (Real.pi / 6))
            - pstop.y) ^ 2
          = (s.thickness * 3) ^ 2 *
            ((Real.cos (Real.pi / 6) ^ 2 + Real.sin (Real.pi / 6) ^ 2) *
              ((dx / n) ^ 2 + (dy / n) ^ 2)) := by
        ring
      rw [hsq, hcs, hu]
      rw [mul_one, mul_one, Real.sqrt_sq hL]
      ring
    · have hsq : (pstop.x - s.thickness * 3 *
          (dx / n * Real.cos (Real.pi / 6) + dy / n * Real.sin (Real.pi / 6))
            - pstop.x) ^ 2
          + (pstop.y - s.thickness * 3 *
          (-(dx / n) * Real.sin (Real.pi / 6) + dy / n * Real.cos (Real.pi / 6))
            - pstop.y) ^ 2
          = (s.thickness * 3) ^ 2 *
            ((Real.cos (Real.pi / 6) ^ 2 + Real.sin (Real.pi / 6) ^ 2) *
              ((dx / n) ^ 2 + (dy / n) ^ 2)) := by
        ring
      rw [hsq, hcs, hu]
      rw [mul_one, mul_one, Real.sqrt_sq hL]
      ring

/-- C6 witness: the concrete arrow stroke from (0,0) to (1,0) with
thickness 2 satisfies the hypotheses and the arrowhead geometry. -/
theorem arrow_shaft_and_arrowhead_witness :
    arrowSampleStroke.tool_type = ToolType.Arrow
    ∧ 2 ≤ arrowSampleStroke.points.length
    ∧ (0:ℝ) ≤ arrowSampleStroke.thickness
    ∧ (arrowSampleStroke.draw =
        [CairoOp.save, CairoOp.setSourceRgba 1 0 0 1,
         CairoOp.setLineWidth 2, CairoOp.setLineCap CairoLineCap.round,
         CairoOp.moveTo 0 0, CairoOp.lineTo 1 0, CairoOp.stroke]
        ++ arrowSampleStroke.draw_arrowhead ⟨0, 0⟩ ⟨1, 0⟩ ++ [CairoOp.restore]
      ∧ ((⟨0, 0⟩ : Point) = (⟨1, 0⟩ : Point) →
          arrowSampleStroke.draw_arrowhead ⟨0, 0⟩ ⟨1, 0⟩ = [])
      ∧ ((⟨0, 0⟩ : Point) ≠ (⟨1, 0⟩ : Point) →
          ∃ t1 t2 : Point,
            arrowSampleStroke.draw_arrowhead ⟨0, 0⟩ ⟨1, 0⟩ =
              [CairoOp.moveTo 1 0, CairoOp.lineTo t1.x t1.y,
               CairoOp.moveTo 1 0, CairoOp.lineTo t2.x t2.y,
               CairoOp.stroke]
            ∧ Real.sqrt ((t1.x - 1) ^ 2 + (t1.y - 0) ^ 2) = 3 * 2
            ∧ Real.sqrt ((t2.x - 1) ^ 2 + (t2.y - 0) ^ 2) = 3 * 2
            ∧ ∃ ux uy : ℝ,
                ux = (1 - 0) /
                  Real.sqrt ((1 - 0) * (1 - 0) + (0 - 0) * (0 - 0))
                ∧ uy = (0 - 0) /
                  Real.sqrt ((1 - 0) * (1 - 0) + (0 - 0) * (0 - 0))
                ∧ ux ^ 2 + uy ^ 2 = 1
                ∧ t1.x - 1 = 3 * 2 *
                    (Real.cos (Real.pi / 6) * (-ux) - Real.sin (Real.pi / 6) * (-uy))
                ∧ t1.y - 0 = 3 * 2 *
                    (Real.sin (Real.pi / 6) * (-ux) + Real.cos (Real.pi / 6) * (-uy))
                ∧ t2.x - 1 = 3 * 2 *
                    (Real.cos (-(Real.pi / 6)) * (-ux)
                      - Real.sin (-(Real.pi / 6)) * (-uy))
                ∧ t2.y - 0 = 3 * 2 *
                    (Real.sin (-(Real.pi / 6)) * (-ux)
                      + Real.cos (-(Real.pi / 6)) * (-uy)))) :=
  ⟨rfl, Nat.le_refl 2, by norm_num [arrowSampleStroke],
    arrow_shaft_and_arrowhead arrowSampleStroke ⟨0, 0⟩ ⟨1, 0⟩ rfl
      (Nat.le_refl 2) (by norm_num [arrowSampleStroke]) rfl rfl⟩

/-! ### Helper lemmas about the surface conversion loops -/

/-- ARgb32 stride is exactly four bytes per pixel (4w is already 4-byte
aligned). -/
theorem format_stride_eq (w : Nat) : format_stride_for_width w = 4 * w := by
  unfold format_stride_for_width
  omega

/-- Writing one pixel does not change the buffer length. -/
theorem writeBgraPixel_length (rgba : List Nat) (w stride x y : Nat)
    (dst : List Nat) :
    (writeBgraPixel rgba w stride x y dst).length = dst.length := by
  simp [writeBgraPixel]

/-- Writing one pixel leaves every index outside its four destination
bytes unchanged. -/
theorem writeBgraPixel_getD_frame (rgba : List Nat) (w stride x y : Nat)
    (dst : List Nat) (i : Nat)
    (hi : i < y * stride + x * 4 ∨ y * stride + x * 4 + 3 < i) :
    (writeBgraPixel rgba w stride x y dst).getD i 0 = dst.getD i 0 := by
  unfold writeBgraPixel
  simp only [List.getD_eq_getElem?_getD]
  rw [List.getElem?_set_ne (by omega), List.getElem?_set_ne (by omega),
    List.getElem?_set_ne (by omega), List.getElem?_set_ne (by omega)]

/-- Reading back the just-set index of a list yields the stored value. -/
theorem getD_set_self_of_lt (l : List Nat) (i : Nat) (a : Nat)
    (h : i < l.length) : (l.set i a).getD i 0 = a := by
  rw [List.getD_eq_getElem?_getD, List.getElem?_set_self h]
  rfl

/-- Reading any other index of a list is unaffected by a set. -/
theorem getD_set_ne (l : List Nat) (i j : Nat) (a : Nat) (h : i ≠ j) :
    (l.set i a).getD j 0 = l.getD j 0 := by
  rw [List.getD_eq_getElem?_getD, List.getElem?_set_ne h,
    ← List.getD_eq_getElem?_getD]

/-- The four bytes an in-bounds pixel write stores: B,G,R,A order in the
destination, read from the R,G,B,A source pixel. -/
theorem writeBgraPixel_getD_hit (rgba : List Nat) (w stride x y : Nat)
    (dst : List Nat) (h : y * stride + x * 4 + 3 < dst.length) :
    (writeBgraPixel rgba w stride x y dst).getD (y * stride + x * 4) 0
        = rgba.getD ((y * w + x) * 4 + 2) 0
    ∧ (writeBgraPixel rgba w stride x y dst).getD (y * stride + x * 4 + 1) 0
        = rgba.getD ((y * w + x) * 4 + 1) 0
    ∧ (writeBgraPixel rgba w stride x y dst).getD (y * stride + x * 4 + 2) 0
        = rgba.getD ((y * w + x) * 4) 0
    ∧ (writeBgraPixel rgba w stride x y dst).getD (y * stride + x * 4 + 3) 0
        = rgba.getD ((y * w + x) * 4 + 3) 0 := by
  unfold writeBgraPixel
  refine ⟨?_, ?_, ?_, ?_⟩
  · rw [getD_set_ne _ _ _ _ (by omega), getD_set_ne _ _ _ _ (by omega),
      getD_set_ne _ _ _ _ (by omega),
      getD_set_self_of_lt _ _ _ (by omega)]
  · rw [getD_set_ne _ _ _ _ (by omega), getD_set_ne _ _ _ _ (by omega),
      getD_set_self_of_lt _ _ _ (by simp only [List.length_set]; omega)]
  · rw [getD_set_ne _ _ _ _ (by omega),
      getD_set_self_of_lt _ _ _ (by simp only [List.length_set]; omega)]
  · rw [getD_set_self_of_lt _ _ _ (by simp only [List.length_set]; omega)]

/-- The row loop does not change the buffer length (the guard only ever
skips writes). -/
theorem convertRow_length (rgba : List Nat) (w stride y : Nat)
    (xs : List Nat) : ∀ (dst : List Nat),
    (convertRow rgba w stride y xs dst).length = dst.length := by
  induction xs with
  | nil => intro dst; rfl
  | cons x xs ih =>
      intro dst
      simp only [convertRow]
      split
      · rw [ih, writeBgraPixel_length]
      · rfl

/-- The row loop leaves indices outside all its pixel byte ranges
unchanged. -/
theorem convertRow_getD_frame (rgba : List Nat) (w stride y : Nat)
    (xs : List Nat) : ∀ (dst : List Nat) (i : Nat),
    (∀ x ∈ xs, i < y * stride + x * 4 ∨ y * stride + x * 4 + 3 < i) →
    (convertRow rgba w stride y xs dst).getD i 0 = dst.getD i 0 := by
  induction xs with
  | nil => intro dst i _; rfl
  | cons x xs ih =>
      intro dst i hi
      simp only [convertRow]
      split
      · rw [ih _ _ (fun z hz => hi z (List.mem_cons_of_mem _ hz)),
          writeBgraPixel_getD_frame _ _ _ _ _ _ _ (hi x (List.mem_cons_self x xs))]
      · rfl

/-- Processing a strictly increasing pixel list writes the four bytes of
any member pixel whose destination range is in bounds: earlier pixels are
also in bounds (their indices are smaller) so the break is not reached
before the pixel, and later writes land in disjoint byte ranges. -/
theorem convertRow_getD_hit (rgba : List Nat) (w stride y x : Nat)
    (xs : List Nat) : ∀ (dst : List Nat), x ∈ xs → xs.Sorted (· < ·) →
    y * stride + x * 4 + 3 < dst.length →
    (convertRow rgba w stride y xs dst).getD (y * stride + x * 4) 0
        = rgba.getD ((y * w + x) * 4 + 2) 0
    ∧ (convertRow rgba w stride y xs dst).getD (y * stride + x * 4 + 1) 0
        = rgba.getD ((y * w + x) * 4 + 1) 0
    ∧ (convertRow rgba w stride y xs dst).getD (y * stride + x * 4 + 2) 0
        = rgba.getD ((y * w + x) * 4) 0
    ∧ (convertRow rgba w stride y xs dst).getD (y * stride + x * 4 + 3) 0
        = rgba.getD ((y * w + x) * 4 + 3) 0 := by
  induction xs with
  | nil => intro dst hmem; exact absurd hmem (List.not_mem_nil x)
  | cons x0 xs ih =>
      intro dst hmem hsorted hin
      rw [List.sorted_cons] at hsorted
      obtain ⟨hlt, hsorted2⟩ := hsorted
      rcases List.mem_cons.mp hmem with heq | hmem2
      · subst heq
        simp only [convertRow]
        rw [if_pos hin]
        have hframe : ∀ c : Nat, c ≤ 3 →
            (convertRow rgba w stride y xs
              (writeBgraPixel rgba w stride x y dst)).getD
                (y * stride + x * 4 + c) 0
              = (writeBgraPixel rgba w stride x y dst).getD
                (y * stride + x * 4 + c) 0 := by
          intro c hc
          apply convertRow_getD_frame
          intro z hz
          have hxz := hlt z hz
          omega
        have hw := writeBgraPixel_getD_hit rgba w stride x y dst hin
        have h0 := hframe 0 (by omega)
        rw [Nat.add_zero] at h0
        exact ⟨h0.trans hw.1, (hframe 1 (by omega)).trans hw.2.1,
          (hframe 2 (by omega)).trans hw.2.2.1,
          (hframe 3 (by omega)).trans hw.2.2.2⟩
      · have hx0x : x0 < x := hlt x hmem2
        simp only [convertRow]
        rw [if_pos (by omega : y * stride + x0 * 4 + 3 < dst.length)]
        exact ih (writeBgraPixel rgba w stride x0 y dst) hmem2 hsorted2
          (by rw [writeBgraPixel_length]; omega)

/-- Processing a strictly increasing pixel list never touches the four
destination bytes of a member pixel whose destination range reaches or
exceeds the buffer length: the guard detects it and the pixel is skipped
(the loop breaks at or before it). -/
theorem convertRow_getD_skip (rgba : List Nat) (w stride y x c : Nat)
    (xs : List Nat) : ∀ (dst : List Nat), x ∈ xs → xs.Sorted (· < ·) →
    c ≤ 3 → dst.length ≤ y * stride + x * 4 + 3 →
    (convertRow rgba w stride y xs dst).getD (y * stride + x * 4 + c) 0
      = dst.getD (y * stride + x * 4 + c) 0 := by
  induction xs with
  | nil => intro dst hmem; exact absurd hmem (List.not_mem_nil x)
  | cons x0 xs ih =>
      intro dst hmem hsorted hc hout
      rw [List.sorted_cons] at hsorted
      obtain ⟨hlt, hsorted2⟩ := hsorted
      rcases List.mem_cons.mp hmem with heq | hmem2
      · subst heq
        simp only [convertRow]
        rw [if_neg (by omega)]
      · have hx0x : x0 < x := hlt x hmem2
        simp only [convertRow]
        split
        · rw [ih _ hmem2 hsorted2 hc
            (by rw [writeBgraPixel_length]; omega),
            writeBgraPixel_getD_frame _ _ _ _ _ _ _ (by omega)]
        · rfl

/-- The nested conversion loops do not change the buffer length. -/
theorem convertRows_length (rgba : List Nat) (w stride : Nat)
    (ys : List Nat) : ∀ (dst : List Nat),
    (convertRows rgba w stride ys dst).length = dst.length := by
  induction ys with
  | nil => intro dst; rfl
  | cons y ys ih =>
      intro dst
      simp only [convertRows]
      rw [ih, convertRow_length]

/-- The nested conversion loops leave indices outside every processed
pixel range unchanged. -/
theorem convertRows_getD_frame (rgba : List Nat) (w stride : Nat)
    (ys : List Nat) : ∀ (dst : List Nat) (i : Nat),
    (∀ y ∈ ys, ∀ x, x < w →
      i < y * stride + x * 4 ∨ y * stride + x * 4 + 3 < i) →
    (convertRows rgba w stride ys dst).getD i 0 = dst.getD i 0 := by
  induction ys with
  | nil => intro dst i _; rfl
  | cons y ys ih =>
      intro dst i hi
      simp only [convertRows]
      rw [ih _ _ (fun z hz => hi z (List.mem_cons_of_mem _ hz)),
        convertRow_getD_frame]
      intro z hz
      exact hi y (List.mem_cons_self y ys) z (List.mem_range.mp hz)

/-- For a stride of at least 4w, distinct rows write into disjoint index
ranges, so the bytes of an in-bounds pixel of a member row survive to the
end of the conversion. -/
theorem convertRows_getD_hit (rgba : List Nat) (w stride x y : Nat)
    (hstride : w * 4 ≤ stride) (hx : x < w) (ys : List Nat) :
    ∀ (dst : List Nat), y ∈ ys → ys.Sorted (· < ·) →
    y * stride + x * 4 + 3 < dst.length →
    (convertRows rgba w stride ys dst).getD (y * stride + x * 4) 0
        = rgba.getD ((y * w + x) * 4 + 2) 0
    ∧ (convertRows rgba w stride ys dst).getD (y * stride + x * 4 + 1) 0
        = rgba.getD ((y * w + x) * 4 + 1) 0
    ∧ (convertRows rgba w stride ys dst).getD (y * stride + x * 4 + 2) 0
        = rgba.getD ((y * w + x) * 4) 0
    ∧ (convertRows rgba w stride ys dst).getD (y * stride + x * 4 + 3) 0
        = rgba.getD ((y * w + x) * 4 + 3) 0 := by
  induction ys with
  | nil => intro dst hmem; exact absurd hmem (List.not_mem_nil y)
  | cons y0 ys ih =>
      intro dst hmem hsorted hin
      rw [List.sorted_cons] at hsorted
      obtain ⟨hlt, hsorted2⟩ := hsorted
      rcases List.mem_cons.mp hmem with heq | hmem2
      · subst heq
        simp only [convertRows]
        have hframe : ∀ c : Nat, c ≤ 3 →
            (convertRows rgba w stride ys
              (convertRow rgba w stride y (List.range w) dst)).getD
                (y * stride + x * 4 + c) 0
              = (convertRow rgba w stride y (List.range w) dst).getD
                (y * stride + x * 4 + c) 0 := by
          intro c hc
          apply convertRows_getD_frame
          intro z hz x1 hx1
          have hyz : y < z := hlt z hz
          have hmul : (y + 1) * stride ≤ z * stride :=
            Nat.mul_le_mul_right stride (by omega)
          rw [Nat.add_mul, Nat.one_mul] at hmul
          omega
        have hrow := convertRow_getD_hit rgba w stride y x (List.range w)
          dst (List.mem_range.mpr hx) (List.sorted_lt_range w) hin
        have h0 := hframe 0 (by omega)
        rw [Nat.add_zero] at h0
        exact ⟨h0.trans hrow.1, (hframe 1 (by omega)).trans hrow.2.1,
          (hframe 2 (by omega)).trans hrow.2.2.1,
          (hframe 3 (by omega)).trans hrow.2.2.2⟩
      · have hy0y : y0 < y := hlt y hmem2
        simp only [convertRows]
        exact ih _ hmem2 hsorted2 (by rw [convertRow_length]; omega)

/-- Pointwise description of the converted surface buffer: with the real
ARgb32 stride every pixel is in bounds, and its four bytes hold the
B,G,R,A values of the corresponding source pixel. -/
theorem load_image_data_getD (rgba : List Nat) (w h x y : Nat)
    (hx : x < w) (hy : y < h) :
    (load_image_data rgba w h).getD (y * (4 * w) + x * 4) 0
        = rgba.getD ((y * w + x) * 4 + 2) 0
    ∧ (load_image_data rgba w h).getD (y * (4 * w) + x * 4 + 1) 0
        = rgba.getD ((y * w + x) * 4 + 1) 0
    ∧ (load_image_data rgba w h).getD (y * (4 * w) + x * 4 + 2) 0
        = rgba.getD ((y * w + x) * 4) 0
    ∧ (load_image_data rgba w h).getD (y * (4 * w) + x * 4 + 3) 0
        = rgba.getD ((y * w + x) * 4 + 3) 0 := by
  have hb : y * (4 * w) + x * 4 + 3 < 4 * w * h := by
    have hmul : (y + 1) * (4 * w) ≤ h * (4 * w) :=
      Nat.mul_le_mul_right _ (by omega)
    rw [Nat.add_mul, Nat.one_mul] at hmul
    rw [Nat.mul_comm h (4 * w)] at hmul
    omega
  simp only [load_image_data, format_stride_eq]
  exact convertRows_getD_hit rgba w (4 * w) x y (by omega) hx
    (List.range h) (List.replicate (4 * w * h) 0) (List.mem_range.mpr hy)
    (List.sorted_lt_range h) (by rw [List.length_replicate]; exact hb)

/-- A list of length w*4, cut into w chunks of four bytes read back by
index, reassembles to itself. -/
theorem row_chunks (w : Nat) : ∀ (L : List Nat), L.length = w * 4 →
    (List.range w).flatMap (fun x =>
      [L.getD (x * 4) 0, L.getD (x * 4 + 1) 0,
       L.getD (x * 4 + 2) 0, L.getD (x * 4 + 3) 0]) = L := by
  induction w with
  | zero =>
      intro L hL
      rw [List.length_eq_zero] at hL
      subst hL
      rfl
  | succ w ih =>
      intro L hL
      rcases L with _ | ⟨a, L⟩
      · simp only [List.length_nil] at hL; omega
      rcases L with _ | ⟨b, L⟩
      · simp only [List.length_cons, List.length_nil] at hL; omega
      rcases L with _ | ⟨c2, L⟩
      · simp only [List.length_cons, List.length_nil] at hL; omega
      rcases L with _ | ⟨d, L2⟩
      · simp only [List.length_cons, List.length_nil] at hL; omega
      have hL2 : L2.length = w * 4 := by
        simp only [List.length_cons] at hL; omega
      have hshift : ∀ (k : Nat),
          (a :: b :: c2 :: d :: L2).getD (k + 4) 0 = L2.getD k 0 :=
        fun k => rfl
      rw [List.range_succ_eq_map, List.flatMap_cons, List.flatMap_map]
      have hfun : (fun x2 =>
          [(a :: b :: c2 :: d :: L2).getD (Nat.succ x2 * 4) 0,
           (a :: b :: c2 :: d :: L2).getD (Nat.succ x2 * 4 + 1) 0,
           (a :: b :: c2 :: d :: L2).getD (Nat.succ x2 * 4 + 2) 0,
           (a :: b :: c2 :: d :: L2).getD (Nat.succ x2 * 4 + 3) 0])
          = (fun x => [L2.getD (x * 4) 0, L2.getD (x * 4 + 1) 0,
            L2.getD (x * 4 + 2) 0, L2.getD (x * 4 + 3) 0]) := by
        funext x2
        rw [show Nat.succ x2 * 4 = x2 * 4 + 4 by omega]
        rw [show x2 * 4 + 4 + 1 = x2 * 4 + 1 + 4 by omega]
        rw [show x2 * 4 + 4 + 2 = x2 * 4 + 2 + 4 by omega]
        rw [show x2 * 4 + 4 + 3 = x2 * 4 + 3 + 4 by omega]
        rw [hshift, hshift, hshift, hshift]
      rw [hfun, ih L2 hL2]
      rfl

/-- A list of length w*h*4, cut into h rows of w four-byte chunks read
back by pixel index, reassembles to itself. -/
theorem grid_chunks (w : Nat) (h : Nat) : ∀ (L : List Nat),
    L.length = w * h * 4 →
    (List.range h).flatMap (fun y => (List.range w).flatMap (fun x =>
      [L.getD ((y * w + x) * 4) 0, L.getD ((y * w + x) * 4 + 1) 0,
       L.getD ((y * w + x) * 4 + 2) 0, L.getD ((y * w + x) * 4 + 3) 0])) = L := by
  induction h with
  | zero =>
      intro L hL
      rw [Nat.mul_zero, Nat.zero_mul, List.length_eq_zero] at hL
      subst hL
      rfl
  | succ h ih =>
      intro L hL
      have hexp : w * (h + 1) * 4 = w * h * 4 + w * 4 := by ring
      have hlen4 : w * 4 ≤ L.length := by omega
      have htake : (L.take (w * 4)).length = w * 4 := by
        rw [List.length_take]
        omega
      have hdroplen : (L.drop (w * 4)).length = w * h * 4 := by
        rw [List.length_drop]
        omega
      rw [List.range_succ_eq_map, List.flatMap_cons, List.flatMap_map]
      have hget : ∀ i, i < w * 4 → L.getD i 0 = (L.take (w * 4)).getD i 0 := by
        intro i hi
        rw [List.getD_eq_getElem?_getD, List.getD_eq_getElem?_getD,
          List.getElem?_take_of_lt hi]
      have hhead : (List.range w).flatMap (fun x =>
          [L.getD ((0 * w + x) * 4) 0, L.getD ((0 * w + x) * 4 + 1) 0,
           L.getD ((0 * w + x) * 4 + 2) 0, L.getD ((0 * w + x) * 4 + 3) 0])
          = L.take (w * 4) := by
        rw [← row_chunks w (L.take (w * 4)) htake]
        rw [List.flatMap_def, List.flatMap_def]
        congr 1
        apply List.map_congr_left
        intro x hx
        have hxw := List.mem_range.mp hx
        rw [show (0 * w + x) * 4 = x * 4 by ring]
        rw [hget (x * 4) (by omega), hget (x * 4 + 1) (by omega),
          hget (x * 4 + 2) (by omega), hget (x * 4 + 3) (by omega)]
      have hdrop : ∀ j, (L.drop (w * 4)).getD j 0 = L.getD (w * 4 + j) 0 := by
        intro j
        rw [List.getD_eq_getElem?_getD, List.getD_eq_getElem?_getD,
          List.getElem?_drop]
      have hfun : (fun y2 => (List.range w).flatMap (fun x =>
          [L.getD ((Nat.succ y2 * w + x) * 4) 0,
           L.getD ((Nat.succ y2 * w + x) * 4 + 1) 0,
           L.getD ((Nat.succ y2 * w + x) * 4 + 2) 0,
           L.getD ((Nat.succ y2 * w + x) * 4 + 3) 0]))
          = (fun y => (List.range w).flatMap (fun x =>
          [(L.drop (w * 4)).getD ((y * w + x) * 4) 0,
           (L.drop (w * 4)).getD ((y * w + x) * 4 + 1) 0,
           (L.drop (w * 4)).getD ((y * w + x) * 4 + 2) 0,
           (L.drop (w * 4)).getD ((y * w + x) * 4 + 3) 0])) := by
        funext y2
        congr 1
        funext x
        rw [hdrop, hdrop, hdrop, hdrop]
        rw [show (Nat.succ y2 * w + x) * 4 = w * 4 + (y2 * w + x) * 4 by
          rw [Nat.succ_mul]; ring]
        simp only [Nat.add_assoc]
      rw [hfun, ih (L.drop (w * 4)) hdroplen, hhead, List.take_append_drop]

/-- C1: converting a W x H tightly packed RGBA8 buffer to the stride-laid
B,G,R,A surface format (zero-filled allocation, Cairo stride) and reading
the surface back to tightly packed RGBA8 (width*4 bytes per row, stride
padding discarded) reproduces the original buffer byte for byte. -/
theorem decode_encode_roundtrip (rgba : List Nat) (w h : Nat)
    (hw : 1 ≤ w) (hh : 1 ≤ h) (hlen : rgba.length = w * h * 4) :
    render_surface_to_rgba (load_image_data rgba w h) w h
      (format_stride_for_width w) = rgba := by
  simp only [render_surface_to_rgba, format_stride_eq]
  refine Eq.trans ?_ (grid_chunks w h rgba hlen)
  rw [List.flatMap_def, List.flatMap_def]
  congr 1
  apply List.map_congr_left
  intro y hy
  rw [List.flatMap_def, List.flatMap_def]
  congr 1
  apply List.map_congr_left
  intro x hx
  have hb := load_image_data_getD rgba w h x y (List.mem_range.mp hx)
    (List.mem_range.mp hy)
  rw [hb.1, hb.2.1, hb.2.2.1, hb.2.2.2]

/-- C1 witness: a one-pixel image round-trips. -/
theorem decode_encode_roundtrip_witness :
    1 ≤ 1 ∧ ([9, 20, 30, 40] : List Nat).length = 1 * 1 * 4
    ∧ render_surface_to_rgba (load_image_data [9, 20, 30, 40] 1 1) 1 1
        (format_stride_for_width 1) = [9, 20, 30, 40] :=
  ⟨Nat.le_refl 1, rfl,
    decode_encode_roundtrip [9, 20, 30, 40] 1 1 (Nat.le_refl 1)
      (Nat.le_refl 1) rfl⟩

/-- C8: in the decode-to-surface pixel loop, a pixel whose destination
index range would reach or exceed the destination buffer length is
detected by the guard and skipped (its four destination bytes are left
untouched), the buffer length never changes (nothing is written outside
it, for the whole nested loop as well), and every pixel whose destination
range is in bounds has its four bytes written normally. -/
theorem conversion_overflow_guard (rgba : List Nat) (w stride y x hgt : Nat)
    (dst : List Nat) (hx : x < w) :
    (convertRow rgba w stride y (List.range w) dst).length = dst.length
    ∧ (convertRows rgba w stride (List.range hgt) dst).length = dst.length
    ∧ (dst.length ≤ y * stride + x * 4 + 3 →
        ∀ c, c ≤ 3 →
        (convertRow rgba w stride y (List.range w) dst).getD
            (y * stride + x * 4 + c) 0
          = dst.getD (y * stride + x * 4 + c) 0)
    ∧ (y * stride + x * 4 + 3 < dst.length →
        (convertRow rgba w stride y (List.range w) dst).getD
            (y * stride + x * 4) 0 = rgba.getD ((y * w + x) * 4 + 2) 0
        ∧ (convertRow rgba w stride y (List.range w) dst).getD
            (y * stride + x * 4 + 1) 0 = rgba.getD ((y * w + x) * 4 + 1) 0
        ∧ (convertRow rgba w stride y (List.range w) dst).getD
            (y * stride + x * 4 + 2) 0 = rgba.getD ((y * w + x) * 4) 0
        ∧ (convertRow rgba w stride y (List.range w) dst).getD
            (y * stride + x * 4 + 3) 0 = rgba.getD ((y * w + x) * 4 + 3) 0) := by
  refine ⟨convertRow_length rgba w stride y (List.range w) dst,
    convertRows_length rgba w stride (List.range hgt) dst, ?_, ?_⟩
  · intro hout c hc
    exact convertRow_getD_skip rgba w stride y x c (List.range w) dst
      (List.mem_range.mpr hx) (List.sorted_lt_range w) hc hout
  · intro hin
    exact convertRow_getD_hit rgba w stride y x (List.range w) dst
      (List.mem_range.mpr hx) (List.sorted_lt_range w) hin

/-- C8 witness: a 2-pixel row converted into a 7-byte buffer with a
mismatched stride of 3: pixel 1 would write bytes 4..7, which reach the
buffer length, so it is skipped. -/
theorem conversion_overflow_guard_witness :
    (1:Nat) < 2
    ∧ ((convertRow [1, 2, 3, 4, 5, 6, 7, 8] 2 3 0 (List.range 2)
          (List.replicate 7 9)).length = (List.replicate 7 9).length
      ∧ (convertRows [1, 2, 3, 4, 5, 6, 7, 8] 2 3 (List.range 1)
          (List.replicate 7 9)).length = (List.replicate 7 9).length
      ∧ ((List.replicate 7 9 : List Nat).length ≤ 0 * 3 + 1 * 4 + 3 →
          ∀ c, c ≤ 3 →
          (convertRow [1, 2, 3, 4, 5, 6, 7, 8] 2 3 0 (List.range 2)
              (List.replicate 7 9)).getD (0 * 3 + 1 * 4 + c) 0
            = (List.replicate 7 9).getD (0 * 3 + 1 * 4 + c) 0)
      ∧ (0 * 3 + 1 * 4 + 3 < (List.replicate 7 9 : List Nat).length →
          (convertRow [1, 2, 3, 4, 5, 6, 7, 8] 2 3 0 (List.range 2)
              (List.replicate 7 9)).getD (0 * 3 + 1 * 4) 0
            = ([1, 2, 3, 4, 5, 6, 7, 8] : List Nat).getD ((0 * 2 + 1) * 4 + 2) 0
          ∧ (convertRow [1, 2, 3, 4, 5, 6, 7, 8] 2 3 0 (List.range 2)
              (List.replicate 7 9)).getD (0 * 3 + 1 * 4 + 1) 0
            = ([1, 2, 3, 4, 5, 6, 7, 8] : List Nat).getD ((0 * 2 + 1) * 4 + 1) 0
          ∧ (convertRow [1, 2, 3, 4, 5, 6, 7, 8] 2 3 0 (List.range 2)
              (List.replicate 7 9)).getD (0 * 3 + 1 * 4 + 2) 0
            = ([1, 2, 3, 4, 5, 6, 7, 8] : List Nat).getD ((0 * 2 + 1) * 4) 0
          ∧ (convertRow [1, 2, 3, 4, 5, 6, 7, 8] 2 3 0 (List.range 2)
              (List.replicate 7 9)).getD (0 * 3 + 1 * 4 + 3) 0
            = ([1, 2, 3, 4, 5, 6, 7, 8] : List Nat).getD ((0 * 2 + 1) * 4 + 3) 0)) :=
  ⟨by omega,
    conversion_overflow_guard [1, 2, 3, 4, 5, 6, 7, 8] 2 3 0 1 1
      (List.replicate 7 9) (by omega)⟩

end Screenshot
